import Mathlib

/-!
Shallow embedding of the Lexe SDK's local payment synchronization and
completion-tracking engine: the local payment store, the watermark-driven
sync engine, the completion poller, and the wallet facade's validation
layer, together with the seed-file and wallet-loading helpers.

The engine itself ships as a compiled native library; this repository
contains its documented contracts (the SDK docstrings) and its test
suite.  Every definition below is therefore modelled from the spec's
description of the engine, and each doc comment names the missing
native function it stands for.
-/

/-- Modelled from the spec: the status of a payment (`PaymentStatus` in the
native library): pending, completed, or failed; completed and failed are
the terminal states. -/
inductive PaymentStatus where
  | pending
  | completed
  | failed
  deriving DecidableEq, Repr

/-- Modelled from the spec: the filter argument of `list_payments`
(`PaymentFilter`): all, pending, or finalized. -/
inductive PaymentFilter where
  | all
  | pending
  | finalized
  deriving DecidableEq, Repr

/-- Modelled from the spec: the direction of a payment
(`PaymentDirection`): inbound, outbound, or info. -/
inductive PaymentDirection where
  | inbound
  | outbound
  | info
  deriving DecidableEq, Repr

/-- Modelled from the spec: the error taxonomy of `FfiError` as the spec
classifies it: `InvalidArgument` (local validation, no I/O),
`NotFound` (note update on an unsynced payment), `RemoteUnavailable`
(network failure), `Timeout` (poller deadline), plus corrupt local data
and an existing seedphrase file. -/
inductive FfiErrorKind where
  | invalidArgument (msg : String)
  | notFound
  | remoteUnavailable
  | timeout
  | corruptData
  | alreadyExists
  deriving DecidableEq, Repr

/-- Modelled from the spec: a payment record (`Payment` in the native
library).  The record is keyed by its payment index
`(created_at_ms, payment_id)`; the `note` field is the only field the
local store may set independently of the remote ledger. -/
structure Payment where
  created_at_ms : Nat
  payment_id : String
  updated_at_ms : Nat
  direction : PaymentDirection
  status : PaymentStatus
  status_msg : String
  amount_sats : Option Nat
  fees_sats : Nat
  note : Option String
  finalized_at_ms : Option Nat
  deriving DecidableEq, Repr

/-- Modelled from the spec: the canonical identity of a payment record,
the pair `(created_at_ms, payment_id)`. -/
def pIndex (p : Payment) : Nat × String :=
  (p.created_at_ms, p.payment_id)

/-- Modelled from the spec: the sync-watermark key of a payment record,
the pair `(updated_at_ms, payment_id)` used for incremental fetches. -/
def wmKey (p : Payment) : Nat × String :=
  (p.updated_at_ms, p.payment_id)

/-- Modelled from the spec: strict lexicographic order on watermark keys,
timestamps first, payment ids as tie-break. -/
def wmLt (a b : Nat × String) : Prop :=
  a.1 < b.1 ∨ (a.1 = b.1 ∧ a.2 < b.2)

instance (a b : Nat × String) : Decidable (wmLt a b) := by
  unfold wmLt
  exact inferInstance

/-- Modelled from the spec: reflexive closure of `wmLt`. -/
def wmLe (a b : Nat × String) : Prop :=
  wmLt a b ∨ a = b

instance (a b : Nat × String) : Decidable (wmLe a b) := by
  unfold wmLe
  exact inferInstance

/-- Modelled from the spec: order on optional watermarks; an absent
watermark is below every watermark. -/
def wmOptLe (a b : Option (Nat × String)) : Prop :=
  match a, b with
  | none, _ => True
  | some _, none => False
  | some v, some w => wmLe v w

instance (a b : Option (Nat × String)) : Decidable (wmOptLe a b) := by
  unfold wmOptLe
  cases a <;> cases b <;> exact inferInstance

/-- Modelled from the spec: whether payment `p` is strictly newer than
the watermark `w`; everything is newer than an absent watermark. -/
def newerThan (w : Option (Nat × String)) (p : Payment) : Bool :=
  match w with
  | none => true
  | some v => decide (wmLt v (wmKey p))

/-- Modelled from the spec: index-equality test used by the store's
keyed lookups. -/
def sameIndex (i : Nat × String) (q : Payment) : Bool :=
  decide (pIndex q = i)

/-- Modelled from the spec: the local payment store's `upsert`: insert
if the index is new (snd = `true`), otherwise replace every field except
`note`, which is preserved unconditionally (snd = `false`). -/
def upsert (store : List Payment) (p : Payment) : List Payment × Bool :=
  match store.find? (sameIndex (pIndex p)) with
  | none => (store ++ [p], true)
  | some old =>
      (store.map fun q =>
        if sameIndex (pIndex p) q then { p with note := old.note } else q,
       false)

/-- Modelled from the spec: the local payment store's `get`: exact
lookup by payment index, no network fallback. -/
def getPayment (store : List Payment) (i : Nat × String) : Option Payment :=
  store.find? (sameIndex i)

/-- Modelled from the spec: the local payment store's `set_note`:
fails with `NotFound` if the index is not present locally; otherwise
rewrites only the `note` field of that record. -/
def setNote (store : List Payment) (i : Nat × String) (note : Option String) :
    Except FfiErrorKind (List Payment) :=
  match store.find? (sameIndex i) with
  | none => Except.error FfiErrorKind.notFound
  | some _ =>
      Except.ok (store.map fun q =>
        if sameIndex i q then { q with note := note } else q)

/-- Modelled from the spec: the predicate of each `list_payments`
filter: all, pending, or finalized (completed or failed). -/
def filterPred (f : PaymentFilter) (p : Payment) : Bool :=
  match f with
  | PaymentFilter.all => true
  | PaymentFilter.pending =>
      match p.status with
      | PaymentStatus.pending => true
      | _ => false
  | PaymentFilter.finalized =>
      match p.status with
      | PaymentStatus.pending => false
      | _ => true

/-- Modelled from the spec: descending insertion by payment index used
to order `list_payments` pages, most recent first. -/
def insertDesc (p : Payment) : List Payment → List Payment
  | [] => [p]
  | q :: rest =>
      if wmLe (pIndex q) (pIndex p) then p :: q :: rest
      else q :: insertDesc p rest

/-- Modelled from the spec: sort a list of payments by
`(created_at_ms, payment_id)` descending for deterministic pagination. -/
def sortDesc (l : List Payment) : List Payment :=
  l.foldr insertDesc []

/-- Modelled from the spec: the local payment store's `list`: filter,
order descending by index, paginate, and report the total count over
the same filter. -/
def listPayments (store : List Payment) (f : PaymentFilter)
    (offset limit : Nat) : List Payment × Nat :=
  let matched := store.filter (filterPred f)
  (((sortDesc matched).drop offset).take limit, matched.length)

/-- Modelled from the spec: the local wallet state: the payment table
plus the persisted sync watermark (absent until the first successful
sync). -/
structure WalletState where
  store : List Payment
  watermark : Option (Nat × String)
  deriving DecidableEq, Repr

/-- Modelled from the spec: `delete_local_payments`: clears every record
and resets the watermark to absent. -/
def deleteLocalPayments (_s : WalletState) : WalletState :=
  { store := [], watermark := none }

/-- Modelled from the spec: `latest_payment_sync_index`: the stored
watermark, or absent if never synced. -/
def latestPaymentSyncIndex (s : WalletState) : Option (Nat × String) :=
  s.watermark

/-- Modelled from the spec: `PaymentSyncSummary`: counts of newly
inserted vs. overwritten records for one sync call. -/
structure PaymentSyncSummary where
  num_new : Nat
  num_updated : Nat
  deriving DecidableEq, Repr

/-- Modelled from the spec: one step of the sync loop: upsert the
fetched record into the store, advance the watermark to that record's
`(updated_at_ms, payment_id)` (only after the upsert), and bump the
summary's new/updated count. -/
def applyOne (s : WalletState) (sum : PaymentSyncSummary) (p : Payment) :
    WalletState × PaymentSyncSummary :=
  let r := upsert s.store p
  ({ store := r.1, watermark := some (wmKey p) },
   if r.2 then { sum with num_new := sum.num_new + 1 }
   else { sum with num_updated := sum.num_updated + 1 })

/-- Modelled from the spec: the sync engine's fetch-and-apply loop over
the records the remote returns.  `failAt = some k` injects a remote
failure after `k` records have been fetched and applied: the loop stops,
already-applied upserts stay applied, the watermark stays at the last
applied record, and the failure is surfaced; `failAt = none` runs to the
end of the stream and returns the accumulated summary. -/
def syncLoop : WalletState → PaymentSyncSummary → List Payment → Option Nat →
    WalletState × Except FfiErrorKind PaymentSyncSummary
  | s, _, _, some 0 => (s, Except.error FfiErrorKind.remoteUnavailable)
  | s, sum, [], _ => (s, Except.ok sum)
  | s, sum, p :: rest, failAt =>
      let r := applyOne s sum p
      syncLoop r.1 r.2 rest (failAt.map (· - 1))

/-- Modelled from the spec: the state part of one sync-loop step: the
upsert applied to the store plus the watermark advanced to the applied
record's key. -/
def stApply (s : WalletState) (p : Payment) : WalletState :=
  { store := (upsert s.store p).1, watermark := some (wmKey p) }

/-- Modelled from the spec: the durability invariant of the watermark:
whenever a watermark is present it is the watermark key of some record
durably stored in the local payment store. -/
def WmInv (s : WalletState) : Prop :=
  ∀ w, s.watermark = some w → ∃ p ∈ s.store, wmKey p = w

/-- Modelled from the spec: the remote ledger's `fetch_payments_since`:
all remote records with `(updated_at_ms, payment_id)` strictly greater
than the watermark, in the order the remote ledger holds them. -/
def fetchSince (remote : List Payment) (w : Option (Nat × String)) :
    List Payment :=
  remote.filter (newerThan w)

/-- Modelled from the spec: `sync_payments`: fetch every remote record
strictly newer than the current watermark and run the sync loop on them;
`failAt` injects a remote failure mid-loop as in `syncLoop`. -/
def sync (remote : List Payment) (s : WalletState) (failAt : Option Nat) :
    WalletState × Except FfiErrorKind PaymentSyncSummary :=
  syncLoop s { num_new := 0, num_updated := 0 }
    (fetchSince remote s.watermark) failAt

/-- Modelled from the spec: a remote ledger page is in ascending
watermark-key order, with distinct keys. -/
def wmSorted (l : List Payment) : Prop :=
  l.Pairwise (fun p q => wmLt (wmKey p) (wmKey q))

instance (l : List Payment) : Decidable (wmSorted l) := by
  unfold wmSorted
  exact List.instDecidablePairwise l

/-- Modelled from the spec: a sequence of successful `sync` calls,
one per remote snapshot in the list. -/
def runSyncSeq (s : WalletState) (remotes : List (List Payment)) :
    WalletState :=
  remotes.foldl (fun st r => (sync r st none).1) s

/-- Modelled from the spec: a hex digit as accepted by the payment-id
validator. -/
def isHexDigit (c : Char) : Bool :=
  c.isDigit || (('a' ≤ c) && (c ≤ 'f')) || (('A' ≤ c) && (c ≤ 'F'))

/-- Modelled from the spec: the tagged-hex shape of a payment id: a rail
tag (the Lightning tag is the three characters 'l', 'n', '_') followed
by a fixed-length (64 character) hex string. -/
def validPaymentIdChars (cs : List Char) : Bool :=
  match cs with
  | 'l' :: 'n' :: '_' :: hexs => hexs.length == 64 && hexs.all isHexDigit
  | _ => false

/-- Modelled from the spec: decimal value of a digit string. -/
def digitsToNat (cs : List Char) : Nat :=
  cs.foldl (fun n c => n * 10 + (c.toNat - 48)) 0

/-- Modelled from the spec: parsing a `PaymentIndex` string
`<created_at_ms>-<payment_id>`: the part before the separator must be a
non-empty string of decimal digits (a non-negative integer timestamp)
and the part after it must have the tagged-hex shape.  Pure validation,
no I/O. -/
def parsePaymentIndex (s : String) : Option (Nat × String) :=
  let cs := s.toList
  let ts := cs.takeWhile (fun c => c != '-')
  match cs.dropWhile (fun c => c != '-') with
  | _ :: pidChars =>
      if !ts.isEmpty && ts.all Char.isDigit &&
          validPaymentIdChars pidChars then
        some (digitsToNat ts, String.mk pidChars)
      else none
  | [] => none

/-- Modelled from the spec: the wallet facade's `get_payment`: validate
the index string locally (an `InvalidArgument` error on a malformed
index, before any I/O), then look the index up in the local store; an
absent record is `none`, not an error.  The second component counts
remote calls performed (always zero: `get` never touches the network). -/
def getPaymentOp (s : WalletState) (idxStr : String) :
    Except FfiErrorKind (Option Payment) × Nat :=
  match parsePaymentIndex idxStr with
  | none =>
      (Except.error
        (FfiErrorKind.invalidArgument ("invalid payment_index: " ++ idxStr)), 0)
  | some i => (Except.ok (getPayment s.store i), 0)

/-- Modelled from the spec: the hard ceiling on
`wait_for_payment_completion` timeouts: 10800 seconds (3 hours). -/
def MAX_WAIT_TIMEOUT_SECS : Nat := 10800

/-- Modelled from the spec: whether a payment status is terminal
(completed or failed). -/
def isTerminal (st : PaymentStatus) : Bool :=
  match st with
  | PaymentStatus.pending => false
  | PaymentStatus.completed => true
  | PaymentStatus.failed => true

/-- Modelled from the spec: the poller's exponential backoff: the next
interval grows multiplicatively (doubling) and is capped at the maximum
interval. -/
def nextInterval (maxInt cur : Nat) : Nat :=
  min (cur * 2) maxInt

/-- Modelled from the spec: the completion poller's loop.  `fetchAt t`
is the remote's view of the single polled payment at elapsed time `t`
(in ms): a remote failure, no record yet, or a record snapshot.  The
loop polls, returns the payment once terminal, checks the deadline on
every iteration boundary, sleeps `max 1 interval` ms between polls, and
fails with `Timeout` once the deadline has passed without a terminal
status.  Returns (result, final elapsed time in ms, remote calls). -/
def pollLoop (fetchAt : Nat → Except Unit (Option Payment))
    (deadline maxInt : Nat) (interval t calls : Nat) :
    Except FfiErrorKind Payment × Nat × Nat :=
  match fetchAt t with
  | Except.error _ => (Except.error FfiErrorKind.remoteUnavailable, t, calls + 1)
  | Except.ok (some p) =>
      if isTerminal p.status then (Except.ok p, t, calls + 1)
      else if h : t < deadline then
        pollLoop fetchAt deadline maxInt (nextInterval maxInt interval)
          (t + max 1 interval) (calls + 1)
      else (Except.error FfiErrorKind.timeout, t, calls + 1)
  | Except.ok none =>
      if h : t < deadline then
        pollLoop fetchAt deadline maxInt (nextInterval maxInt interval)
          (t + max 1 interval) (calls + 1)
      else (Except.error FfiErrorKind.timeout, t, calls + 1)
termination_by deadline - t
decreasing_by
  · have := Nat.le_max_left 1 interval
    omega
  · have := Nat.le_max_left 1 interval
    omega

/-- Modelled from the spec: `wait_for_payment_completion`: validate the
index string, reject (fail fast, before any polling or remote I/O) any
timeout strictly larger than the 10800 s hard ceiling rather than
clamping it, then run the poll loop with exponential backoff starting
from `baseInt` ms capped at `maxInt` ms.  Returns (result, final elapsed
time in ms, remote calls). -/
def waitForPaymentCompletion (fetchAt : Nat → Except Unit (Option Payment))
    (baseInt maxInt : Nat) (idxStr : String) (timeoutSecs : Nat) :
    Except FfiErrorKind Payment × Nat × Nat :=
  match parsePaymentIndex idxStr with
  | none =>
      (Except.error
        (FfiErrorKind.invalidArgument ("invalid payment_index: " ++ idxStr)),
       0, 0)
  | some _ =>
      if timeoutSecs > MAX_WAIT_TIMEOUT_SECS then
        (Except.error
          (FfiErrorKind.invalidArgument
            "timeout_secs exceeds the 10800 second maximum"),
         0, 0)
      else pollLoop fetchAt (timeoutSecs * 1000) maxInt baseInt 0 0

/-- Modelled from the spec: the on-disk wallet data for one
(user, environment) namespace: either corrupted bytes or a valid
persisted wallet state. -/
inductive WalletData where
  | corrupted
  | valid (state : WalletState)
  deriving DecidableEq, Repr

/-- Modelled from the spec: look up the wallet data stored for a
(user, environment) namespace under the base data directory. -/
def lookupNs (d : List ((String × String) × WalletData))
    (user env : String) : Option WalletData :=
  (d.find? (fun e => decide (e.1 = (user, env)))).map (·.2)

/-- Modelled from the spec: `try_load_wallet`: returns `none` when no
local data exists for this user/environment namespace, the loaded
wallet when valid data exists, and raises an `FfiError` only when local
data exists but is corrupted. -/
def tryLoadWallet (d : List ((String × String) × WalletData))
    (user env : String) : Except FfiErrorKind (Option WalletState) :=
  match lookupNs d user env with
  | none => Except.ok none
  | some WalletData.corrupted => Except.error FfiErrorKind.corruptData
  | some (WalletData.valid s) => Except.ok (some s)

/-- Modelled from the spec: look up a file's contents in a filesystem
modelled as a path-to-contents association list. -/
def lookupFile (fs : List (String × String)) (path : String) :
    Option String :=
  (fs.find? (fun e => decide (e.1 = path))).map (·.2)

/-- Modelled from the spec: `WalletEnvConfig.seedphrase_path`: mainnet
uses `<dir>/seedphrase.txt`, other environments
`<dir>/seedphrase.<env>.txt`. -/
def seedphrasePath (envTag dataDir : String) : String :=
  if envTag = "prod" then dataDir ++ "/seedphrase.txt"
  else dataDir ++ "/seedphrase." ++ envTag ++ ".txt"

/-- Modelled from the spec: `write_seed_to_path`: writes the root seed's
mnemonic to the given path, failing with an `FfiError` if the file
already exists; on failure the filesystem is returned unchanged. -/
def writeSeedToPath (fs : List (String × String)) (mnemonic path : String) :
    List (String × String) × Except FfiErrorKind Unit :=
  match lookupFile fs path with
  | some _ => (fs, Except.error FfiErrorKind.alreadyExists)
  | none => ((path, mnemonic) :: fs, Except.ok ())

/-- Modelled from the spec: `write_seed`: writes the mnemonic to the
environment's seedphrase path, failing if the file already exists. -/
def writeSeed (fs : List (String × String)) (mnemonic envTag dataDir : String) :
    List (String × String) × Except FfiErrorKind Unit :=
  writeSeedToPath fs mnemonic (seedphrasePath envTag dataDir)

/-- Modelled from the spec: a concrete payment record builder used to
instantiate the contracts on concrete inputs. -/
def samplePayment (cid : Nat) (pid : String) (upd : Nat)
    (st : PaymentStatus) (note : Option String) : Payment :=
  { created_at_ms := cid, payment_id := pid, updated_at_ms := upd,
    direction := PaymentDirection.inbound, status := st, status_msg := "",
    amount_sats := some 1000, fees_sats := 2, note := note,
    finalized_at_ms := none }

/-! Order lemmas for watermark keys. -/

/-- wmLt is irreflexive. -/
theorem wmLt_irrefl (a : Nat × String) : ¬ wmLt a a := by
  unfold wmLt
  rintro (h | ⟨-, h⟩)
  · omega
  · exact lt_irrefl _ h

/-- wmLt is transitive. -/
theorem wmLt_trans {a b c : Nat × String} (h1 : wmLt a b) (h2 : wmLt b c) :
    wmLt a c := by
  unfold wmLt at *
  rcases h1 with h1 | ⟨e1, l1⟩ <;> rcases h2 with h2 | ⟨e2, l2⟩
  · exact Or.inl (by omega)
  · exact Or.inl (by omega)
  · exact Or.inl (by omega)
  · exact Or.inr ⟨by omega, lt_trans l1 l2⟩

/-- wmLt is asymmetric. -/
theorem wmLt_asymm {a b : Nat × String} (h : wmLt a b) : ¬ wmLt b a :=
  fun h' => wmLt_irrefl a (wmLt_trans h h')

/-- Totality: if not wmLt a b then wmLe b a. -/
theorem wmLe_of_not_wmLt {a b : Nat × String} (h : ¬ wmLt a b) : wmLe b a := by
  unfold wmLt at h
  push_neg at h
  rcases Nat.lt_trichotomy a.1 b.1 with hlt | heq | hgt
  · exact absurd hlt (Nat.not_lt.mpr h.1)
  · rcases lt_trichotomy b.2 a.2 with slt | seq | sgt
    · exact Or.inl (Or.inr ⟨heq.symm, slt⟩)
    · exact Or.inr (Prod.ext heq.symm seq)
    · exact absurd sgt (h.2 heq)
  · exact Or.inl (Or.inl hgt)

/-- wmLe after wmLt gives wmLt. -/
theorem wmLt_of_wmLe_of_wmLt {a b c : Nat × String} (h1 : wmLe a b)
    (h2 : wmLt b c) : wmLt a c := by
  rcases h1 with h1 | rfl
  · exact wmLt_trans h1 h2
  · exact h2

/-- wmLt after wmLe gives wmLt. -/
theorem wmLt_of_wmLt_of_wmLe {a b c : Nat × String} (h1 : wmLt a b)
    (h2 : wmLe b c) : wmLt a c := by
  rcases h2 with h2 | rfl
  · exact wmLt_trans h1 h2
  · exact h1

/-- wmLe is transitive. -/
theorem wmLe_trans {a b c : Nat × String} (h1 : wmLe a b) (h2 : wmLe b c) :
    wmLe a c := by
  rcases h1 with h1 | rfl
  · exact Or.inl (wmLt_of_wmLt_of_wmLe h1 h2)
  · exact h2

/-- wmLe is reflexive. -/
theorem wmLe_refl (a : Nat × String) : wmLe a a :=
  Or.inr rfl

/-- wmOptLe is reflexive. -/
theorem wmOptLe_refl (a : Option (Nat × String)) : wmOptLe a a := by
  cases a
  · trivial
  · exact wmLe_refl _

/-- wmOptLe is transitive. -/
theorem wmOptLe_trans {a b c : Option (Nat × String)} (h1 : wmOptLe a b)
    (h2 : wmOptLe b c) : wmOptLe a c := by
  cases a <;> cases b <;> cases c <;> simp [wmOptLe] at *
  exact wmLe_trans h1 h2

/-! Store lemmas. -/

/-- A record matches its own index. -/
theorem sameIndex_self (p : Payment) : sameIndex (pIndex p) p = true := by
  simp [sameIndex]

/-- Changing only the note does not change the payment index. -/
theorem pIndex_set_note (p : Payment) (n : Option String) :
    pIndex { p with note := n } = pIndex p := rfl

/-- Changing only the note does not change the watermark key. -/
theorem wmKey_set_note (p : Payment) (n : Option String) :
    wmKey { p with note := n } = wmKey p := rfl

/-- Replacing exactly the matching entries of a keyed list by a record
that itself matches the key keeps the lookup pointing at the
replacement. -/
theorem find?_map_replace (l : List Payment) (i : Nat × String)
    (r : Payment) (hr : sameIndex i r = true) (old : Payment)
    (h : l.find? (sameIndex i) = some old) :
    (l.map fun q => if sameIndex i q then r else q).find? (sameIndex i) =
      some r := by
  induction l with
  | nil => simp at h
  | cons a t ih =>
    by_cases ha : sameIndex i a = true
    · simp only [List.map_cons, if_pos ha]
      exact List.find?_cons_of_pos _ hr
    · rw [List.find?_cons_of_neg _ ha] at h
      simp only [List.map_cons, if_neg ha]
      rw [List.find?_cons_of_neg _ ha]
      exact ih h

/-- On an existing index, upsert takes the replace branch. -/
theorem upsert_existing (store : List Payment) (p old : Payment)
    (h : getPayment store (pIndex p) = some old) :
    upsert store p =
      (store.map fun q =>
        if sameIndex (pIndex p) q then { p with note := old.note } else q,
       false) := by
  unfold getPayment at h
  unfold upsert
  rw [h]

/-- C5: for every payment record already present in the local store,
an upsert of an incoming record with the same PaymentIndex is reported
as an update (not an insert), the stored record afterwards carries the
incoming record's every field except the note, and the note is the old
record's note, preserved unconditionally — in particular a non-empty
note is never cleared. -/
theorem upsert_preserves_note (store : List Payment) (p old : Payment)
    (h : getPayment store (pIndex p) = some old) :
    (upsert store p).2 = false ∧
    getPayment (upsert store p).1 (pIndex p) =
      some { p with note := old.note } := by
  have he := upsert_existing store p old h
  refine ⟨by rw [he], ?_⟩
  rw [he]
  unfold getPayment at h ⊢
  exact find?_map_replace store (pIndex p) _ (by simp [sameIndex, pIndex]) old h

/-- C5 witness: a stored record with note "keep" is updated by a resync
of the same index; the incoming fields replace it wholesale but the
note "keep" survives. -/
theorem upsert_preserves_note_witness :
    (upsert [samplePayment 5 "a" 6 PaymentStatus.pending (some "keep")]
      (samplePayment 5 "a" 9 PaymentStatus.completed none)).2 = false ∧
    getPayment
      (upsert [samplePayment 5 "a" 6 PaymentStatus.pending (some "keep")]
        (samplePayment 5 "a" 9 PaymentStatus.completed none)).1
      (pIndex (samplePayment 5 "a" 9 PaymentStatus.completed none)) =
      some { samplePayment 5 "a" 9 PaymentStatus.completed none with
              note := (samplePayment 5 "a" 6 PaymentStatus.pending
                (some "keep")).note } :=
  upsert_preserves_note _ _ _ (by decide)

/-! Sync-loop lemmas. -/

/-- The state component of one loop step is `stApply`. -/
theorem applyOne_fst (s : WalletState) (sum : PaymentSyncSummary)
    (p : Payment) : (applyOne s sum p).1 = stApply s p := rfl

/-- On a fresh index, upsert takes the insert branch. -/
theorem upsert_new (store : List Payment) (p : Payment)
    (h : getPayment store (pIndex p) = none) :
    upsert store p = (store ++ [p], true) := by
  unfold getPayment at h
  unfold upsert
  rw [h]

/-- A failure-free loop applies every record in order. -/
theorem syncLoop_none_fst (recs : List Payment) : ∀ s sum,
    (syncLoop s sum recs none).1 = recs.foldl stApply s := by
  induction recs with
  | nil => intro s sum; rfl
  | cons p rest ih =>
    intro s sum
    have hstep : syncLoop s sum (p :: rest) none =
        syncLoop (stApply s p) (applyOne s sum p).2 rest none := rfl
    rw [hstep, List.foldl_cons]
    exact ih _ _

/-- A failure-free loop reports success. -/
theorem syncLoop_none_ok (recs : List Payment) : ∀ s sum,
    ∃ u, (syncLoop s sum recs none).2 = Except.ok u := by
  induction recs with
  | nil => intro s sum; exact ⟨sum, rfl⟩
  | cons p rest ih =>
    intro s sum
    have hstep : syncLoop s sum (p :: rest) none =
        syncLoop (stApply s p) (applyOne s sum p).2 rest none := rfl
    rw [hstep]
    exact ih _ _

/-- After folding the applied records, the watermark is the key of the
last applied record, or unchanged when nothing was applied. -/
theorem foldl_stApply_wm (l : List Payment) : ∀ s : WalletState,
    (l.foldl stApply s).watermark =
      l.getLast?.elim s.watermark (fun p => some (wmKey p)) := by
  induction l with
  | nil => intro s; rfl
  | cons p rest ih =>
    intro s
    rw [List.foldl_cons, ih]
    cases rest with
    | nil => rfl
    | cons q t =>
      rw [List.getLast?_cons_cons]
      cases hlast : (q :: t).getLast? with
      | none => simp [List.getLast?_eq_none_iff] at hlast
      | some r => rfl

/-- A loop that fails after `k` of the records keeps exactly the `k`
applied upserts and surfaces the failure. -/
theorem syncLoop_failAt (k : Nat) : ∀ (recs : List Payment) s sum,
    k < recs.length →
    syncLoop s sum recs (some k) =
      ((recs.take k).foldl stApply s,
       Except.error FfiErrorKind.remoteUnavailable) := by
  induction k with
  | zero =>
    intro recs s sum _
    cases recs <;> rfl
  | succ k ih =>
    intro recs s sum h
    cases recs with
    | nil => simp at h
    | cons p rest =>
      have hstep : syncLoop s sum (p :: rest) (some (k + 1)) =
          syncLoop (stApply s p) (applyOne s sum p).2 rest (some k) := rfl
      rw [hstep, ih rest _ _ (by simpa using h), List.take_succ_cons,
        List.foldl_cons]

/-- The loop's watermark never decreases when every record in the page
is newer than the current watermark and the page is ascending. -/
theorem syncLoop_wm_mono (recs : List Payment) : ∀ s sum failAt,
    (∀ p ∈ recs, newerThan s.watermark p = true) → wmSorted recs →
    wmOptLe s.watermark (syncLoop s sum recs failAt).1.watermark := by
  induction recs with
  | nil =>
    intro s sum failAt _ _
    match failAt with
    | none => exact wmOptLe_refl _
    | some 0 => exact wmOptLe_refl _
    | some (k + 1) => exact wmOptLe_refl _
  | cons p rest ih =>
    intro s sum failAt hnew hsort
    have hmono1 : wmOptLe s.watermark (stApply s p).watermark := by
      have hp := hnew p (List.mem_cons_self p rest)
      unfold newerThan at hp
      cases hw : s.watermark with
      | none => trivial
      | some v =>
        rw [hw] at hp
        simp only [decide_eq_true_eq] at hp
        exact Or.inl hp
    have hrest : ∀ q ∈ rest, newerThan (stApply s p).watermark q = true := by
      intro q hq
      have := (List.pairwise_cons.mp hsort).1 q hq
      simp only [stApply, newerThan, decide_eq_true_eq]
      exact this
    have hrec : ∀ failAt', wmOptLe s.watermark
        (syncLoop (stApply s p) (applyOne s sum p).2 rest failAt').1.watermark :=
      fun failAt' => wmOptLe_trans hmono1
        (ih _ _ failAt' hrest (List.pairwise_cons.mp hsort).2)
    match failAt with
    | none => exact hrec none
    | some 0 => exact wmOptLe_refl _
    | some (k + 1) => exact hrec (some k)

/-- One applied record re-establishes the durability invariant: the new
watermark is the key of the record just stored. -/
theorem stApply_wmInv (s : WalletState) (p : Payment) : WmInv (stApply s p) := by
  intro w hw
  have hwk : w = wmKey p := by
    simpa [stApply] using hw.symm
  subst hwk
  cases hfind : getPayment s.store (pIndex p) with
  | none =>
    have hst : (stApply s p).store = s.store ++ [p] := by
      simp [stApply, upsert_new _ _ hfind]
    exact ⟨p, by simp [hst], rfl⟩
  | some old =>
    have hst : (stApply s p).store = s.store.map fun q =>
        if sameIndex (pIndex p) q then { p with note := old.note } else q := by
      simp [stApply, upsert_existing _ _ _ hfind]
    have hmem := List.mem_of_find?_eq_some hfind
    have hcond : sameIndex (pIndex p) old = true := List.find?_some hfind
    refine ⟨{ p with note := old.note }, ?_, rfl⟩
    rw [hst]
    have himg := List.mem_map_of_mem (fun q =>
      if sameIndex (pIndex p) q then { p with note := old.note } else q) hmem
    simpa [hcond] using himg

/-- The loop preserves the durability invariant. -/
theorem syncLoop_wmInv (recs : List Payment) : ∀ s sum failAt, WmInv s →
    WmInv (syncLoop s sum recs failAt).1 := by
  induction recs with
  | nil =>
    intro s sum failAt hinv
    match failAt with
    | none => exact hinv
    | some 0 => exact hinv
    | some (k + 1) => exact hinv
  | cons p rest ih =>
    intro s sum failAt hinv
    match failAt with
    | none => exact ih _ _ none (stApply_wmInv s p)
    | some 0 => exact hinv
    | some (k + 1) => exact ih _ _ (some k) (stApply_wmInv s p)

/-- One sync call (even one that fails mid-loop) never decreases the
watermark. -/
theorem sync_wm_mono (remote : List Payment) (s : WalletState)
    (failAt : Option Nat) (hs : wmSorted remote) :
    wmOptLe s.watermark (sync remote s failAt).1.watermark := by
  unfold sync
  apply syncLoop_wm_mono
  · intro p hp
    exact (List.mem_filter.mp hp).2
  · exact hs.filter _

/-- One sync call preserves the durability invariant. -/
theorem sync_wmInv (remote : List Payment) (s : WalletState)
    (failAt : Option Nat) (hinv : WmInv s) : WmInv (sync remote s failAt).1 :=
  syncLoop_wmInv _ _ _ _ hinv

/-- In an ascending page, every record's key is at most the last
record's key. -/
theorem sorted_le_getLast (l : List Payment) (hs : wmSorted l)
    (last : Payment) (hl : l.getLast? = some last) :
    ∀ p ∈ l, wmLe (wmKey p) (wmKey last) := by
  obtain ⟨ys, rfl⟩ := List.getLast?_eq_some_iff.mp hl
  intro p hp
  rcases List.mem_append.mp hp with h | h
  · exact Or.inl ((List.pairwise_append.mp hs).2.2 p h last (by simp))
  · rw [List.mem_singleton] at h
    subst h
    exact wmLe_refl _

/-- After a successful sync against an ascending remote ledger, no
remote record is newer than the new watermark. -/
theorem sync_no_newer (remote : List Payment) (s : WalletState)
    (hs : wmSorted remote) :
    fetchSince remote (sync remote s none).1.watermark = [] := by
  have hfst : (sync remote s none).1 =
      (fetchSince remote s.watermark).foldl stApply s :=
    syncLoop_none_fst _ _ _
  have hwm := foldl_stApply_wm (fetchSince remote s.watermark) s
  have hsorted : wmSorted (fetchSince remote s.watermark) := hs.filter _
  unfold fetchSince
  rw [List.filter_eq_nil_iff]
  intro p hp
  cases hlast : (fetchSince remote s.watermark).getLast? with
  | none =>
    have hnil : fetchSince remote s.watermark = [] :=
      List.getLast?_eq_none_iff.mp hlast
    have hwm' : (sync remote s none).1.watermark = s.watermark := by
      rw [hfst, hwm, hlast]
      rfl
    rw [hwm']
    have := List.filter_eq_nil_iff.mp hnil p hp
    exact this
  | some last =>
    have hwm' : (sync remote s none).1.watermark = some (wmKey last) := by
      rw [hfst, hwm, hlast]
      rfl
    rw [hwm']
    have hlastmem : last ∈ fetchSince remote s.watermark := by
      obtain ⟨ys, hy⟩ := List.getLast?_eq_some_iff.mp hlast
      rw [hy]
      simp
    simp only [newerThan, decide_eq_true_eq]
    by_cases hnp : newerThan s.watermark p = true
    · have hpf : p ∈ fetchSince remote s.watermark :=
        List.mem_filter.mpr ⟨hp, hnp⟩
      have hle := sorted_le_getLast _ hsorted last hlast p hpf
      intro hlt
      exact wmLt_irrefl _ (wmLt_of_wmLe_of_wmLt hle hlt)
    · cases hw : s.watermark with
      | none => rw [hw] at hnp; exact absurd rfl hnp
      | some v =>
        rw [hw] at hnp
        simp only [newerThan, decide_eq_true_eq] at hnp
        have hple : wmLe (wmKey p) v := wmLe_of_not_wmLt hnp
        have hvlast : wmLt v (wmKey last) := by
          have := (List.mem_filter.mp hlastmem).2
          rw [hw] at this
          simpa [newerThan] using this
        intro hlt
        exact wmLt_irrefl _
          (wmLt_trans (wmLt_of_wmLe_of_wmLt hple hvlast) hlt)

/-- C1: calling `sync_payments` a second time immediately after a
successful sync with no new remote data succeeds with a summary of zero
new and zero updated payments and leaves the wallet state — in
particular the sync watermark — unchanged. -/
theorem sync_idempotent (remote : List Payment) (s : WalletState)
    (hs : wmSorted remote) :
    (∃ sum1, (sync remote s none).2 = Except.ok sum1) ∧
    sync remote (sync remote s none).1 none =
      ((sync remote s none).1,
       Except.ok { num_new := 0, num_updated := 0 }) := by
  refine ⟨syncLoop_none_ok _ _ _, ?_⟩
  have hempty := sync_no_newer remote s hs
  show syncLoop _ _ (fetchSince remote (sync remote s none).1.watermark) none = _
  rw [hempty]
  rfl

/-- C1 witness: a concrete two-record remote ledger synced into an
empty wallet; the second sync returns a zero summary and the same
state. -/
theorem sync_idempotent_witness :
    (∃ sum1, (sync [samplePayment 1 "a" 2 PaymentStatus.pending none,
        samplePayment 3 "b" 4 PaymentStatus.completed none]
        { store := [], watermark := none } none).2 = Except.ok sum1) ∧
    sync [samplePayment 1 "a" 2 PaymentStatus.pending none,
        samplePayment 3 "b" 4 PaymentStatus.completed none]
      (sync [samplePayment 1 "a" 2 PaymentStatus.pending none,
          samplePayment 3 "b" 4 PaymentStatus.completed none]
        { store := [], watermark := none } none).1 none =
      ((sync [samplePayment 1 "a" 2 PaymentStatus.pending none,
          samplePayment 3 "b" 4 PaymentStatus.completed none]
        { store := [], watermark := none } none).1,
       Except.ok { num_new := 0, num_updated := 0 }) :=
  sync_idempotent _ _ (by decide)

/-- C2: across any sequence of successful `sync_payments` calls against
ascending remote snapshots, the sync watermark is non-decreasing; and
the durability invariant — the watermark, when present, is the key of a
record durably stored in the local payment store — is preserved by the
whole sequence, so the watermark never points past a record that was
not durably stored. -/
theorem sync_seq_monotone_durable (s : WalletState)
    (remotes : List (List Payment)) (hs : ∀ r ∈ remotes, wmSorted r) :
    wmOptLe s.watermark (runSyncSeq s remotes).watermark ∧
    (WmInv s → WmInv (runSyncSeq s remotes)) := by
  induction remotes generalizing s with
  | nil => exact ⟨wmOptLe_refl _, id⟩
  | cons r rs ih =>
    have hstep : runSyncSeq s (r :: rs) = runSyncSeq ((sync r s none).1) rs :=
      rfl
    have h1 := sync_wm_mono r s none (hs r (List.mem_cons_self r rs))
    obtain ⟨m2, i2⟩ := ih ((sync r s none).1)
      (fun r' hr' => hs r' (List.mem_cons_of_mem r hr'))
    rw [hstep]
    exact ⟨wmOptLe_trans h1 m2, fun hinv => i2 (sync_wmInv r s none hinv)⟩

/-- C2 witness: two successive syncs of concrete ascending snapshots
into an empty wallet keep the watermark non-decreasing and durable. -/
theorem sync_seq_monotone_durable_witness :
    wmOptLe ({ store := [], watermark := none } : WalletState).watermark
      (runSyncSeq { store := [], watermark := none }
        [[samplePayment 1 "a" 2 PaymentStatus.pending none],
         [samplePayment 1 "a" 2 PaymentStatus.pending none,
          samplePayment 3 "b" 4 PaymentStatus.completed none]]).watermark ∧
    (WmInv { store := [], watermark := none } →
      WmInv (runSyncSeq { store := [], watermark := none }
        [[samplePayment 1 "a" 2 PaymentStatus.pending none],
         [samplePayment 1 "a" 2 PaymentStatus.pending none,
          samplePayment 3 "b" 4 PaymentStatus.completed none]])) :=
  sync_seq_monotone_durable _ _ (by decide)

/-- A filter that rejects exactly the first `k` elements and accepts
the rest is the drop of `k`. -/
theorem filter_eq_drop (l : List Payment) (pred : Payment → Bool) :
    ∀ k, k ≤ l.length → (∀ p ∈ l.take k, pred p = false) →
    (∀ p ∈ l.drop k, pred p = true) → l.filter pred = l.drop k := by
  induction l with
  | nil =>
    intro k _ _ _
    simp
  | cons a t ih =>
    intro k hk hfalse htrue
    cases k with
    | zero =>
      rw [List.drop_zero]
      exact List.filter_eq_self.mpr (by simpa using htrue)
    | succ k =>
      have ha : pred a = false :=
        hfalse a (by rw [List.take_succ_cons]; exact List.mem_cons_self a _)
      rw [List.drop_succ_cons,
        List.filter_cons_of_neg (by simp [ha])]
      refine ih k (by simpa using hk) ?_ ?_
      · intro p hp
        apply hfalse p
        rw [List.take_succ_cons]
        exact List.mem_cons_of_mem a hp
      · intro p hp
        apply htrue p
        rwa [List.drop_succ_cons]

/-- C3: if the remote fetch fails after `k` records of a sync, the
failure is surfaced as a remote error, the wallet state is exactly the
`k` already-applied upserts (no rollback), the watermark is exactly the
`(updated_at_ms, payment_id)` key of the last durably-applied record
(or unchanged when nothing was applied), the next sync fetches exactly
the unprocessed records (no reprocessing, no double-counting), and that
next sync ends in the same state as an uninterrupted sync would have. -/
theorem sync_partial_failure (remote : List Payment) (s : WalletState)
    (k : Nat) (hs : wmSorted remote)
    (hk : k < (fetchSince remote s.watermark).length) :
    (sync remote s (some k)).2 = Except.error FfiErrorKind.remoteUnavailable ∧
    (sync remote s (some k)).1 =
      ((fetchSince remote s.watermark).take k).foldl stApply s ∧
    (sync remote s (some k)).1.watermark =
      (((fetchSince remote s.watermark).take k).getLast?).elim s.watermark
        (fun p => some (wmKey p)) ∧
    fetchSince remote (sync remote s (some k)).1.watermark =
      (fetchSince remote s.watermark).drop k ∧
    (sync remote (sync remote s (some k)).1 none).1 =
      (sync remote s none).1 := by
  set fetched := fetchSince remote s.watermark with hfdef
  have hsync : sync remote s (some k) =
      ((fetched.take k).foldl stApply s,
       Except.error FfiErrorKind.remoteUnavailable) :=
    syncLoop_failAt k fetched s _ hk
  have hw : (sync remote s (some k)).1.watermark =
      ((fetched.take k).getLast?).elim s.watermark (fun p => some (wmKey p)) := by
    rw [hsync]
    exact foldl_stApply_wm _ _
  have hfsorted : wmSorted fetched := hs.filter _
  have hresume : fetchSince remote (sync remote s (some k)).1.watermark =
      fetched.drop k := by
    cases htl : (fetched.take k).getLast? with
    | none =>
      have : fetched.take k = [] := List.getLast?_eq_none_iff.mp htl
      have hk0 : k = 0 := by
        have := congrArg List.length this
        rw [List.length_take] at this
        simp only [List.length_nil] at this
        omega
      subst hk0
      rw [hw, htl]
      simp [hfdef]
    | some last =>
      have hwk : (sync remote s (some k)).1.watermark = some (wmKey last) := by
        rw [hw, htl]
        rfl
      have hlast_tk : last ∈ fetched.take k := by
        obtain ⟨ys, hy⟩ := List.getLast?_eq_some_iff.mp htl
        rw [hy]
        simp
      have hlast_f : last ∈ fetched := List.take_subset k fetched hlast_tk
      have htk_sorted : wmSorted (fetched.take k) :=
        List.Pairwise.sublist (List.take_sublist k fetched) hfsorted
      have happ : fetched.take k ++ fetched.drop k = fetched :=
        List.take_append_drop k fetched
      have hpw : List.Pairwise (fun p q => wmLt (wmKey p) (wmKey q))
          (fetched.take k ++ fetched.drop k) := by
        rw [happ]
        exact hfsorted
      have hfalse : ∀ p ∈ fetched.take k,
          newerThan (some (wmKey last)) p = false := by
        intro p hp
        have hle := sorted_le_getLast _ htk_sorted last htl p hp
        simp only [newerThan, decide_eq_false_iff_not]
        exact fun hlt => wmLt_irrefl _ (wmLt_of_wmLe_of_wmLt hle hlt)
      have htrue : ∀ p ∈ fetched.drop k,
          newerThan (some (wmKey last)) p = true := by
        intro p hp
        have := (List.pairwise_append.mp hpw).2.2 last hlast_tk p hp
        simpa [newerThan] using this
      have hmono : ∀ x, newerThan (some (wmKey last)) x = true →
          newerThan s.watermark x = true := by
        intro x hx
        cases hw0 : s.watermark with
        | none => rfl
        | some v =>
          have hvlast : wmLt v (wmKey last) := by
            have := (List.mem_filter.mp hlast_f).2
            rw [hw0] at this
            simpa [newerThan] using this
          simp only [newerThan, decide_eq_true_eq] at hx ⊢
          exact wmLt_trans hvlast hx
      rw [hwk]
      show List.filter (newerThan (some (wmKey last))) remote = fetched.drop k
      have hcong : List.filter (newerThan (some (wmKey last))) remote =
          List.filter (fun x => newerThan (some (wmKey last)) x &&
            newerThan s.watermark x) remote := by
        apply List.filter_congr
        intro x _
        cases hwx : newerThan (some (wmKey last)) x with
        | false => simp [hwx]
        | true => simp [hwx, hmono x hwx]
      rw [hcong, ← List.filter_filter]
      exact filter_eq_drop fetched _ k (Nat.le_of_lt hk) hfalse htrue
  refine ⟨by rw [hsync], by rw [hsync], hw, hresume, ?_⟩
  have h2 : (sync remote (sync remote s (some k)).1 none).1 =
      (fetchSince remote (sync remote s (some k)).1.watermark).foldl stApply
        (sync remote s (some k)).1 :=
    syncLoop_none_fst _ _ _
  rw [h2, hresume, hsync]
  show (fetched.drop k).foldl stApply ((fetched.take k).foldl stApply s) = _
  rw [← List.foldl_append, List.take_append_drop]
  exact (syncLoop_none_fst _ _ _).symm

/-- C3 witness: a remote failure after one of two records leaves the
first upsert applied, surfaces the error, parks the watermark on the
applied record, and the retry fetches exactly the second record. -/
theorem sync_partial_failure_witness :
    ((sync [samplePayment 1 "a" 2 PaymentStatus.pending none,
        samplePayment 3 "b" 4 PaymentStatus.completed none]
      { store := [], watermark := none } (some 1)).2 =
        Except.error FfiErrorKind.remoteUnavailable ∧
    (sync [samplePayment 1 "a" 2 PaymentStatus.pending none,
        samplePayment 3 "b" 4 PaymentStatus.completed none]
      { store := [], watermark := none } (some 1)).1 =
      ((fetchSince [samplePayment 1 "a" 2 PaymentStatus.pending none,
          samplePayment 3 "b" 4 PaymentStatus.completed none] none).take 1).foldl
        stApply { store := [], watermark := none } ∧
    (sync [samplePayment 1 "a" 2 PaymentStatus.pending none,
        samplePayment 3 "b" 4 PaymentStatus.completed none]
      { store := [], watermark := none } (some 1)).1.watermark =
      (((fetchSince [samplePayment 1 "a" 2 PaymentStatus.pending none,
          samplePayment 3 "b" 4 PaymentStatus.completed none] none).take
            1).getLast?).elim none (fun p => some (wmKey p)) ∧
    fetchSince [samplePayment 1 "a" 2 PaymentStatus.pending none,
        samplePayment 3 "b" 4 PaymentStatus.completed none]
      (sync [samplePayment 1 "a" 2 PaymentStatus.pending none,
          samplePayment 3 "b" 4 PaymentStatus.completed none]
        { store := [], watermark := none } (some 1)).1.watermark =
      (fetchSince [samplePayment 1 "a" 2 PaymentStatus.pending none,
          samplePayment 3 "b" 4 PaymentStatus.completed none] none).drop 1 ∧
    (sync [samplePayment 1 "a" 2 PaymentStatus.pending none,
        samplePayment 3 "b" 4 PaymentStatus.completed none]
      (sync [samplePayment 1 "a" 2 PaymentStatus.pending none,
          samplePayment 3 "b" 4 PaymentStatus.completed none]
        { store := [], watermark := none } (some 1)).1 none).1 =
      (sync [samplePayment 1 "a" 2 PaymentStatus.pending none,
          samplePayment 3 "b" 4 PaymentStatus.completed none]
        { store := [], watermark := none } none).1) :=
  sync_partial_failure _ _ 1 (by decide) (by decide)

/-- C4: `get_payment` on the malformed index string "fake_payment_id"
fails with an InvalidArgument-class error whose message leads with
"invalid payment_index", performing zero remote calls (no I/O), while
`get_payment` on the well-formed but locally absent index
"1234567890-ln\_" followed by 64 '0' characters returns an empty result
(none), not an error, again with zero remote calls. -/
theorem get_payment_validation (s : WalletState)
    (habs : getPayment s.store
      (1234567890, "ln_0000000000000000000000000000000000000000000000000000000000000000") = none) :
    getPaymentOp s "fake_payment_id" =
      (Except.error (FfiErrorKind.invalidArgument
        "invalid payment_index: fake_payment_id"), 0) ∧
    String.mk (("invalid payment_index: fake_payment_id").toList.take 21) =
      "invalid payment_index" ∧
    getPaymentOp s
      "1234567890-ln_0000000000000000000000000000000000000000000000000000000000000000" =
      (Except.ok none, 0) := by
  have h1 : parsePaymentIndex "fake_payment_id" = none := by decide
  have h2 : parsePaymentIndex
      "1234567890-ln_0000000000000000000000000000000000000000000000000000000000000000" =
      some (1234567890,
        "ln_0000000000000000000000000000000000000000000000000000000000000000") := by
    decide
  refine ⟨?_, by decide, ?_⟩
  · unfold getPaymentOp
    rw [h1]
    rfl
  · unfold getPaymentOp
    rw [h2]
    show (Except.ok (getPayment s.store
      (1234567890, "ln_0000000000000000000000000000000000000000000000000000000000000000")), (0 : Nat)) = _
    rw [habs]

/-- C4 witness: the validation contract instantiated on a wallet with
an empty local store. -/
theorem get_payment_validation_witness :
    getPaymentOp { store := [], watermark := none } "fake_payment_id" =
      (Except.error (FfiErrorKind.invalidArgument
        "invalid payment_index: fake_payment_id"), 0) ∧
    String.mk (("invalid payment_index: fake_payment_id").toList.take 21) =
      "invalid payment_index" ∧
    getPaymentOp { store := [], watermark := none }
      "1234567890-ln_0000000000000000000000000000000000000000000000000000000000000000" =
      (Except.ok none, 0) :=
  get_payment_validation _ rfl

/-- C6: for every timeout strictly greater than the 10800 second hard
ceiling, `wait_for_payment_completion` fails fast with an
InvalidArgument-class error and performs zero polls and zero remote
calls — it does not silently clamp the timeout to the ceiling. -/
theorem wait_rejects_excessive_timeout
    (fetchAt : Nat → Except Unit (Option Payment)) (baseInt maxInt : Nat)
    (idxStr : String) (timeoutSecs : Nat)
    (h : MAX_WAIT_TIMEOUT_SECS < timeoutSecs) :
    ∃ msg, waitForPaymentCompletion fetchAt baseInt maxInt idxStr timeoutSecs =
      (Except.error (FfiErrorKind.invalidArgument msg), 0, 0) := by
  unfold waitForPaymentCompletion
  cases hp : parsePaymentIndex idxStr with
  | none => exact ⟨"invalid payment_index: " ++ idxStr, rfl⟩
  | some i =>
    refine ⟨"timeout_secs exceeds the 10800 second maximum", ?_⟩
    simp only [gt_iff_lt, h, if_true]

/-- C6 witness: a timeout of 10801 seconds on a well-formed index is
rejected with no polling. -/
theorem wait_rejects_excessive_timeout_witness :
    ∃ msg, waitForPaymentCompletion (fun _ => Except.ok none) 100 1000
      "1234567890-ln_0000000000000000000000000000000000000000000000000000000000000000"
      10801 = (Except.error (FfiErrorKind.invalidArgument msg), 0, 0) :=
  wait_rejects_excessive_timeout _ _ _ _ _ (by decide)

/-- On a payment that never reaches a terminal state, the poll loop
returns the Timeout error and stops no later than the deadline plus one
(capped) backoff interval. -/
theorem pollLoop_timeout (fetchAt : Nat → Except Unit (Option Payment))
    (deadline maxInt : Nat) (hmax : 1 ≤ maxInt)
    (hnr : ∀ t, (∀ p, fetchAt t = Except.ok (some p) →
      isTerminal p.status = false) ∧ ∀ u, fetchAt t ≠ Except.error u) :
    ∀ interval t calls, interval ≤ maxInt → t ≤ deadline + maxInt →
    (pollLoop fetchAt deadline maxInt interval t calls).1 =
      Except.error FfiErrorKind.timeout ∧
    (pollLoop fetchAt deadline maxInt interval t calls).2.1 ≤
      deadline + maxInt := by
  intro interval t calls
  induction interval, t, calls using pollLoop.induct fetchAt deadline maxInt with
  | case1 interval t calls a herr =>
    intro _ _
    exact absurd herr ((hnr t).2 a)
  | case2 interval t calls p hok hterm =>
    intro _ _
    have hf := (hnr t).1 p hok
    rw [hf] at hterm
    simp at hterm
  | case3 interval t calls p hok hterm hlt ih =>
    intro hint ht
    have hstep : max 1 interval ≤ maxInt := Nat.max_le.mpr ⟨hmax, hint⟩
    have hnext : nextInterval maxInt interval ≤ maxInt := Nat.min_le_right _ _
    have hrec := ih hnext (by omega)
    rw [pollLoop.eq_def, hok]
    simp only [hterm, hlt, if_false, dite_true, ite_false, dite_eq_ite]
    exact hrec
  | case4 interval t calls p hok hterm hge =>
    intro _ ht
    rw [pollLoop.eq_def, hok]
    simp only [hterm, hge, if_false, ite_false, dite_false]
    exact ⟨rfl, ht⟩
  | case5 interval t calls hok hlt ih =>
    intro hint ht
    have hstep : max 1 interval ≤ maxInt := Nat.max_le.mpr ⟨hmax, hint⟩
    have hnext : nextInterval maxInt interval ≤ maxInt := Nat.min_le_right _ _
    have hrec := ih hnext (by omega)
    rw [pollLoop.eq_def, hok]
    simp only [hlt, dite_true]
    exact hrec
  | case6 interval t calls hok hge =>
    intro _ ht
    rw [pollLoop.eq_def, hok]
    simp only [hge, dite_false]
    exact ⟨trivial, ht⟩

/-- C7: on a valid index and a valid timeout, polling a payment that
never reaches completed or failed terminates with the Timeout error —
distinct from the RemoteUnavailable error — no later than the timeout
plus one capped backoff interval (in particular it never hangs). -/
theorem wait_never_resolving_times_out
    (fetchAt : Nat → Except Unit (Option Payment)) (baseInt maxInt : Nat)
    (idxStr : String) (timeoutSecs : Nat) (i : Nat × String)
    (hidx : parsePaymentIndex idxStr = some i)
    (hto : timeoutSecs ≤ MAX_WAIT_TIMEOUT_SECS)
    (hbase : baseInt ≤ maxInt) (hmax : 1 ≤ maxInt)
    (hnr : ∀ t, (∀ p, fetchAt t = Except.ok (some p) →
      isTerminal p.status = false) ∧ ∀ u, fetchAt t ≠ Except.error u) :
    (waitForPaymentCompletion fetchAt baseInt maxInt idxStr timeoutSecs).1 =
      Except.error FfiErrorKind.timeout ∧
    (waitForPaymentCompletion fetchAt baseInt maxInt idxStr timeoutSecs).2.1 ≤
      timeoutSecs * 1000 + maxInt ∧
    FfiErrorKind.timeout ≠ FfiErrorKind.remoteUnavailable := by
  have hmain := pollLoop_timeout fetchAt (timeoutSecs * 1000) maxInt hmax hnr
    baseInt 0 0 hbase (by omega)
  have hred : waitForPaymentCompletion fetchAt baseInt maxInt idxStr
      timeoutSecs = pollLoop fetchAt (timeoutSecs * 1000) maxInt baseInt 0 0 := by
    unfold waitForPaymentCompletion
    rw [hidx]
    simp only [gt_iff_lt, Nat.not_lt.mpr hto, if_false, ite_false]
  rw [hred]
  exact ⟨hmain.1, hmain.2, by simp⟩

/-- C7 witness: a remote that always answers "no record yet" makes a
2-second wait with 100 ms base and 1000 ms cap time out within
2000 + 1000 ms. -/
theorem wait_never_resolving_times_out_witness :
    (waitForPaymentCompletion (fun _ => Except.ok none) 100 1000
      "1234567890-ln_0000000000000000000000000000000000000000000000000000000000000000"
      2).1 = Except.error FfiErrorKind.timeout ∧
    (waitForPaymentCompletion (fun _ => Except.ok none) 100 1000
      "1234567890-ln_0000000000000000000000000000000000000000000000000000000000000000"
      2).2.1 ≤ 2 * 1000 + 1000 ∧
    FfiErrorKind.timeout ≠ FfiErrorKind.remoteUnavailable :=
  wait_never_resolving_times_out _ _ _ _ _
    (1234567890,
      "ln_0000000000000000000000000000000000000000000000000000000000000000")
    (by decide) (by decide) (by decide) (by decide)
    (fun t => ⟨fun p h => by simp at h, fun u h => by simp at h⟩)

/-- After upserting a record, its index is present in the store. -/
theorem getPayment_upsert_self (store : List Payment) (p : Payment) :
    (getPayment (upsert store p).1 (pIndex p)).isSome = true := by
  cases hfind : getPayment store (pIndex p) with
  | none =>
    rw [upsert_new _ _ hfind]
    unfold getPayment at hfind ⊢
    rw [List.find?_append, hfind, Option.none_or,
      List.find?_cons_of_pos _ (sameIndex_self p)]
    rfl
  | some old =>
    rw [upsert_existing _ _ _ hfind]
    unfold getPayment at hfind ⊢
    rw [find?_map_replace store (pIndex p) _ (by simp [sameIndex, pIndex])
      old hfind]
    rfl

/-- Upserting never removes an index that was present. -/
theorem getPayment_upsert_mono (store : List Payment) (q : Payment)
    (i : Nat × String) (h : (getPayment store i).isSome = true) :
    (getPayment (upsert store q).1 i).isSome = true := by
  cases hfind : getPayment store (pIndex q) with
  | none =>
    rw [upsert_new _ _ hfind]
    unfold getPayment at h ⊢
    rw [List.find?_append]
    cases hs : store.find? (sameIndex i) with
    | none => simp [hs] at h
    | some a => rfl
  | some old =>
    rw [upsert_existing _ _ _ hfind]
    unfold getPayment at h ⊢
    rw [List.find?_isSome] at h ⊢
    obtain ⟨x, hx, hxi⟩ := h
    by_cases hq : sameIndex (pIndex q) x = true
    · refine ⟨{ q with note := old.note }, ?_, ?_⟩
      · have := List.mem_map_of_mem (fun r =>
          if sameIndex (pIndex q) r then { q with note := old.note } else r) hx
        simpa [hq] using this
      · simp only [sameIndex, decide_eq_true_eq] at hxi hq ⊢
        rw [pIndex_set_note]
        rw [← hq]
        exact hxi
    · refine ⟨x, ?_, hxi⟩
      have := List.mem_map_of_mem (fun r =>
        if sameIndex (pIndex q) r then { q with note := old.note } else r) hx
      simpa [hq] using this

/-- Folding sync steps never removes a present index. -/
theorem foldl_present_mono (recs : List Payment) : ∀ (s : WalletState) i,
    (getPayment s.store i).isSome = true →
    (getPayment ((recs.foldl stApply s).store) i).isSome = true := by
  induction recs with
  | nil => intro s i h; exact h
  | cons q rest ih =>
    intro s i h
    rw [List.foldl_cons]
    exact ih _ _ (getPayment_upsert_mono _ _ _ h)

/-- Every applied record's index is present after the fold. -/
theorem foldl_present_mem (recs : List Payment) : ∀ (s : WalletState) p,
    p ∈ recs →
    (getPayment ((recs.foldl stApply s).store) (pIndex p)).isSome = true := by
  induction recs with
  | nil => intro s p h; simp at h
  | cons q rest ih =>
    intro s p h
    rw [List.foldl_cons]
    rcases List.mem_cons.mp h with rfl | hr
    · exact foldl_present_mono rest _ _ (getPayment_upsert_self _ _)
    · exact ih _ _ hr

/-- C8: after `delete_local_payments`, listing with the ALL filter
returns zero records and a total count of zero, the sync watermark is
reset to absent, and a subsequent `sync_payments` fetches the whole
remote ledger, succeeds, and leaves every remote record present in the
local store. -/
theorem delete_resets_sync_state (s : WalletState) (remote : List Payment)
    (offset limit : Nat) :
    listPayments (deleteLocalPayments s).store PaymentFilter.all offset
      limit = ([], 0) ∧
    latestPaymentSyncIndex (deleteLocalPayments s) = none ∧
    fetchSince remote (deleteLocalPayments s).watermark = remote ∧
    (∃ sum, (sync remote (deleteLocalPayments s) none).2 = Except.ok sum) ∧
    ∀ p ∈ remote,
      (getPayment (sync remote (deleteLocalPayments s) none).1.store
        (pIndex p)).isSome = true := by
  have hfetch : fetchSince remote (deleteLocalPayments s).watermark =
      remote :=
    List.filter_eq_self.mpr (fun p _ => rfl)
  refine ⟨by simp [listPayments, deleteLocalPayments, sortDesc], rfl, hfetch,
    syncLoop_none_ok _ _ _, ?_⟩
  intro p hp
  have hfst : (sync remote (deleteLocalPayments s) none).1 =
      (fetchSince remote (deleteLocalPayments s).watermark).foldl stApply
        (deleteLocalPayments s) :=
    syncLoop_none_fst _ _ _
  rw [hfst, hfetch]
  exact foldl_present_mem remote _ p hp

/-- C8 witness: deleting a populated wallet's local payments and
resyncing a one-record remote ledger restores the record. -/
theorem delete_resets_sync_state_witness :
    listPayments (deleteLocalPayments
      { store := [samplePayment 1 "a" 2 PaymentStatus.pending none],
        watermark := some (2, "a") }).store PaymentFilter.all 0 10 =
      ([], 0) ∧
    latestPaymentSyncIndex (deleteLocalPayments
      { store := [samplePayment 1 "a" 2 PaymentStatus.pending none],
        watermark := some (2, "a") }) = none ∧
    fetchSince [samplePayment 1 "a" 2 PaymentStatus.pending none]
      (deleteLocalPayments
        { store := [samplePayment 1 "a" 2 PaymentStatus.pending none],
          watermark := some (2, "a") }).watermark =
      [samplePayment 1 "a" 2 PaymentStatus.pending none] ∧
    (∃ sum, (sync [samplePayment 1 "a" 2 PaymentStatus.pending none]
      (deleteLocalPayments
        { store := [samplePayment 1 "a" 2 PaymentStatus.pending none],
          watermark := some (2, "a") }) none).2 = Except.ok sum) ∧
    ∀ p ∈ [samplePayment 1 "a" 2 PaymentStatus.pending none],
      (getPayment (sync [samplePayment 1 "a" 2 PaymentStatus.pending none]
        (deleteLocalPayments
          { store := [samplePayment 1 "a" 2 PaymentStatus.pending none],
            watermark := some (2, "a") }) none).1.store
        (pIndex p)).isSome = true :=
  delete_resets_sync_state _ _ 0 10

/-- C9: `try_load_wallet` returns an empty result (no error) exactly
when no local wallet data exists for the (user, environment) namespace;
it raises an `FfiError` only when local data exists but is corrupted. -/
theorem try_load_wallet_spec (d : List ((String × String) × WalletData))
    (user env : String) :
    (lookupNs d user env = none →
      tryLoadWallet d user env = Except.ok none) ∧
    (∀ e, tryLoadWallet d user env = Except.error e →
      lookupNs d user env = some WalletData.corrupted ∧
        e = FfiErrorKind.corruptData) ∧
    (∀ w, lookupNs d user env = some (WalletData.valid w) →
      tryLoadWallet d user env = Except.ok (some w)) := by
  unfold tryLoadWallet
  cases hl : lookupNs d user env with
  | none =>
    refine ⟨fun _ => rfl, fun e he => ?_, fun w hw => ?_⟩
    · cases he
    · cases hw
  | some data =>
    cases data with
    | corrupted =>
      refine ⟨fun h => ?_, fun e he => ⟨rfl, ?_⟩, fun w hw => ?_⟩
      · cases h
      · cases he; rfl
      · cases hw
    | valid w0 =>
      refine ⟨fun h => ?_, fun e he => ?_, fun w hw => ?_⟩
      · cases h
      · cases he
      · cases hw; rfl

/-- C9 witness: loading from a directory holding no namespace for the
user returns an empty result, and a corrupted namespace raises. -/
theorem try_load_wallet_spec_witness :
    tryLoadWallet [] "user1" "dev" = Except.ok none :=
  (try_load_wallet_spec [] "user1" "dev").1 rfl

/-- C10: `write_seed_to_path` (and `write_seed` via the environment's
seedphrase path) never overwrites an existing seedphrase file: when the
file exists the call fails with an `FfiError` leaving the filesystem —
in particular the existing contents — unchanged; when no file exists
the seed is written and readable back. -/
theorem write_seed_no_overwrite (fs : List (String × String))
    (mnemonic path envTag dataDir : String) :
    (∀ c, lookupFile fs path = some c →
      writeSeedToPath fs mnemonic path =
        (fs, Except.error FfiErrorKind.alreadyExists) ∧
      lookupFile (writeSeedToPath fs mnemonic path).1 path = some c) ∧
    (lookupFile fs path = none →
      writeSeedToPath fs mnemonic path =
        ((path, mnemonic) :: fs, Except.ok ()) ∧
      lookupFile (writeSeedToPath fs mnemonic path).1 path = some mnemonic) ∧
    (∀ c, lookupFile fs (seedphrasePath envTag dataDir) = some c →
      writeSeed fs mnemonic envTag dataDir =
        (fs, Except.error FfiErrorKind.alreadyExists)) := by
  refine ⟨fun c hc => ?_, fun hn => ?_, fun c hc => ?_⟩
  · have hw : writeSeedToPath fs mnemonic path =
        (fs, Except.error FfiErrorKind.alreadyExists) := by
      unfold writeSeedToPath
      rw [hc]
    exact ⟨hw, by rw [hw]; exact hc⟩
  · have hw : writeSeedToPath fs mnemonic path =
        ((path, mnemonic) :: fs, Except.ok ()) := by
      unfold writeSeedToPath
      rw [hn]
    refine ⟨hw, ?_⟩
    rw [hw]
    unfold lookupFile
    rw [List.find?_cons_of_pos _ (by simp)]
    rfl
  · unfold writeSeed
    unfold writeSeedToPath
    rw [hc]

/-- C10 witness: writing over an existing seedphrase file fails and
keeps the old contents; writing to a fresh path stores the mnemonic. -/
theorem write_seed_no_overwrite_witness :
    (writeSeedToPath [("/d/seedphrase.txt", "old words")] "new words"
      "/d/seedphrase.txt" =
      ([("/d/seedphrase.txt", "old words")],
        Except.error FfiErrorKind.alreadyExists) ∧
    lookupFile (writeSeedToPath [("/d/seedphrase.txt", "old words")]
      "new words" "/d/seedphrase.txt").1 "/d/seedphrase.txt" =
      some "old words") ∧
    (writeSeedToPath [] "new words" "/d/seedphrase.txt" =
      ([("/d/seedphrase.txt", "new words")], Except.ok ()) ∧
    lookupFile (writeSeedToPath [] "new words" "/d/seedphrase.txt").1
      "/d/seedphrase.txt" = some "new words") :=
  ⟨(write_seed_no_overwrite [("/d/seedphrase.txt", "old words")]
      "new words" "/d/seedphrase.txt" "prod" "/d").1 "old words" rfl,
   (write_seed_no_overwrite [] "new words" "/d/seedphrase.txt" "prod"
      "/d").2.1 rfl⟩
